import Mathlib

/-!
Shallow embedding of the AI Wargame engine (`AI_Wargame_D1.py`): the board and
unit data model, the move-legality predicates, move resolution, win detection,
the three heuristic evaluators, and the minimax / alpha-beta searches.
Python integers are modelled as `Int`, Python float arithmetic on heuristic
scores as `ℚ` (all divisions in the source have integer operands, so `ℚ` is
exact), and Python runtime errors (ZeroDivisionError, unpacking `None`,
attribute access on `None`) as `Option.none`.  The board, a `dim × dim` list
of lists always created rectangular, is embedded as a cell function
`Int → Int → Option Unit` guarded by the same coordinate-validity checks as
the source's `get`/`set`.
-/

namespace Wargame

/-- Enum `UnitType` from the source. -/
inductive UnitType where
  | AI
  | Tech
  | Virus
  | Program
  | Firewall
deriving DecidableEq, Repr

/-- Enum `Player` from the source. -/
inductive Player where
  | Attacker
  | Defender
deriving DecidableEq, Repr

/-- `Player.next`. -/
def Player.next : Player → Player
  | .Attacker => .Defender
  | .Defender => .Attacker

/-- `Unit.damage_table`, indexed by (attacker type, defender type). -/
def damage_table : UnitType → UnitType → Int
  | .AI, .AI => 3 | .AI, .Tech => 3 | .AI, .Virus => 3 | .AI, .Program => 3 | .AI, .Firewall => 1
  | .Tech, .AI => 1 | .Tech, .Tech => 1 | .Tech, .Virus => 6 | .Tech, .Program => 1 | .Tech, .Firewall => 1
  | .Virus, .AI => 9 | .Virus, .Tech => 6 | .Virus, .Virus => 1 | .Virus, .Program => 6 | .Virus, .Firewall => 1
  | .Program, .AI => 3 | .Program, .Tech => 3 | .Program, .Virus => 3 | .Program, .Program => 3 | .Program, .Firewall => 1
  | .Firewall, _ => 1

/-- `Unit.repair_table`, indexed by (repairer type, target type). -/
def repair_table : UnitType → UnitType → Int
  | .AI, .Tech => 1 | .AI, .Virus => 1 | .AI, .AI => 0 | .AI, .Program => 0 | .AI, .Firewall => 0
  | .Tech, .AI => 3 | .Tech, .Program => 3 | .Tech, .Firewall => 3 | .Tech, .Tech => 0 | .Tech, .Virus => 0
  | .Virus, _ => 0
  | .Program, _ => 0
  | .Firewall, _ => 0

/-- Dataclass `Unit` from the source. -/
structure Unit where
  player : Player
  type : UnitType
  health : Int
deriving DecidableEq, Repr

/-- `Unit.is_alive`. -/
def Unit.is_alive (u : Unit) : Bool := u.health > 0

/-- `Unit.mod_health`: add a delta and clamp the result into `[0, 9]`. -/
def Unit.mod_health (u : Unit) (delta : Int) : Unit :=
  let h := u.health + delta
  if h < 0 then { u with health := 0 }
  else if h > 9 then { u with health := 9 }
  else { u with health := h }

/-- `Unit.damage_amount`: table entry, capped at the target's current health. -/
def Unit.damage_amount (u target : Unit) : Int :=
  let amount := damage_table u.type target.type
  if target.health - amount < 0 then target.health else amount

/-- `Unit.repair_amount`: table entry, capped so the target cannot exceed 9. -/
def Unit.repair_amount (u target : Unit) : Int :=
  let amount := repair_table u.type target.type
  if target.health + amount > 9 then 9 - target.health else amount

/-- Dataclass `Coord` from the source. -/
@[ext]
structure Coord where
  row : Int
  col : Int
deriving DecidableEq, Repr

/-- `Coord.iter_adjacent`: the 4 orthogonal neighbours, in source order
(up, left, down, right). -/
def Coord.iter_adjacent (c : Coord) : List Coord :=
  [⟨c.row - 1, c.col⟩, ⟨c.row, c.col - 1⟩, ⟨c.row + 1, c.col⟩, ⟨c.row, c.col + 1⟩]

/-- `Coord.iter_range`: the square of Coords within Chebyshev distance
`dist`, row-major as in the source's nested `range` loops. -/
def Coord.iter_range (c : Coord) (dist : Nat) : List Coord :=
  (List.range (2 * dist + 1)).flatMap fun i =>
    (List.range (2 * dist + 1)).map fun j =>
      ⟨c.row - dist + i, c.col - dist + j⟩

/-- Dataclass `CoordPair` from the source. -/
structure CoordPair where
  src : Coord
  dst : Coord
deriving DecidableEq, Repr

/-- `CoordPair.iter_rectangle`: all cells of the rectangle, row-major. -/
def CoordPair.iter_rectangle (p : CoordPair) : List Coord :=
  (List.range (p.dst.row + 1 - p.src.row).toNat).flatMap fun i =>
    (List.range (p.dst.col + 1 - p.src.col).toNat).map fun j =>
      ⟨p.src.row + i, p.src.col + j⟩

/-- `CoordPair.from_dim`. -/
def CoordPair.from_dim (dim : Int) : CoordPair :=
  ⟨⟨0, 0⟩, ⟨dim - 1, dim - 1⟩⟩

/-- `MAX_HEURISTIC_SCORE` (as a rational, since heuristic scores mix with
Python float arithmetic). -/
def MAX_HEURISTIC_SCORE : ℚ := 2000000000

/-- `MIN_HEURISTIC_SCORE`. -/
def MIN_HEURISTIC_SCORE : ℚ := -2000000000

/-- Dataclass `Options` (the fields the engine core reads; broker and game
type are interface-level and unused by the embedded operations). -/
structure Options where
  dim : Int := 5
  max_depth : Nat := 4
  max_time : ℚ := 5
  max_turns : Option Int := some 100
  alpha_beta : Bool := true
  randomize_moves : Bool := true
  heuristic : Int := 0
deriving DecidableEq, Repr

/-- Dataclass `Game`: the board as a cell function plus the scalar state.
`stats` is shared, used only for reporting, and elided. -/
structure Game where
  board : Int → Int → Option Unit
  next_player : Player := .Attacker
  turns_played : Int := 0
  options : Options := {}
  attacker_has_ai : Bool := true
  defender_has_ai : Bool := true

/-- `Game.is_valid_coord`. -/
def Game.is_valid_coord (g : Game) (c : Coord) : Bool :=
  !(c.row < 0 || c.row ≥ g.options.dim || c.col < 0 || c.col ≥ g.options.dim)

/-- `Game.get`: cell contents, `none` off the board. -/
def Game.get (g : Game) (c : Coord) : Option Unit :=
  if g.is_valid_coord c then g.board c.row c.col else none

/-- `Game.set`: write a cell, a no-op off the board. -/
def Game.set (g : Game) (c : Coord) (u : Option Unit) : Game :=
  if g.is_valid_coord c then
    { g with board := fun r k => if r = c.row ∧ k = c.col then u else g.board r k }
  else g

/-- `Game.remove_dead`: drop a dead unit and clear the faction's
has-Command-unit flag when it was an AI. -/
def Game.remove_dead (g : Game) (c : Coord) : Game :=
  match g.get c with
  | none => g
  | some u =>
    if !u.is_alive then
      let g := g.set c none
      if u.type = .AI then
        if u.player = .Attacker then { g with attacker_has_ai := false }
        else { g with defender_has_ai := false }
      else g
    else g

/-- `Game.mod_health`: clamped health update followed by dead-unit removal. -/
def Game.mod_health (g : Game) (c : Coord) (delta : Int) : Game :=
  match g.get c with
  | none => g
  | some target => (g.set c (some (target.mod_health delta))).remove_dead c

/-- The elements of a list strictly after the first occurrence of `a`:
what remains of the `iter_adjacent` generator after Python's
`dst not in adjacent_coords` membership test has consumed it up to `dst`. -/
def afterFirst (a : Coord) : List Coord → List Coord
  | [] => []
  | x :: xs => if x = a then xs else afterFirst a xs

/-- `Game.is_valid_move`.  The source stores `iter_adjacent()` — a generator —
in `adjacent_coords`, tests `coords.dst not in adjacent_coords` (consuming it
up to `dst`), and later iterates the same generator for the engagement check,
which therefore only sees the neighbours strictly after `dst`. -/
def Game.is_valid_move (g : Game) (coords : CoordPair) : Bool :=
  if !g.is_valid_coord coords.src || !g.is_valid_coord coords.dst then false
  else match g.get coords.src with
  | none => false
  | some u =>
    if u.player ≠ g.next_player then false
    else if coords.src = coords.dst then true
    else
      let adjacent_coords := coords.src.iter_adjacent
      if coords.dst ∉ adjacent_coords then false
      else
        let remaining := afterFirst coords.dst adjacent_coords
        match g.get coords.dst with
        | none =>
          if u.type = .Tech ∨ u.type = .Virus then true
          else if remaining.any (fun c =>
              match g.get c with
              | some au => au.player ≠ u.player
              | none => false) then false
          else if u.player = .Attacker then
            coords.dst = ⟨coords.src.row - 1, coords.src.col⟩ ∨
              coords.dst = ⟨coords.src.row, coords.src.col - 1⟩
          else
            coords.dst = ⟨coords.src.row + 1, coords.src.col⟩ ∨
              coords.dst = ⟨coords.src.row, coords.src.col + 1⟩
        | some target =>
          if target.player = u.player ∧ u.repair_amount target > 0 then true
          else if target.player ≠ u.player then true
          else false

/-- `Game.is_valid_move_for_AI`: like `is_valid_move` but parameterized by
the acting player, with no `dst ∈ adjacent` membership test at all (the
generator is stored but never consumed before the engagement loop, which
therefore sees all 4 neighbours). -/
def Game.is_valid_move_for_AI (g : Game) (coords : CoordPair) (player : Player) : Bool :=
  if !g.is_valid_coord coords.src || !g.is_valid_coord coords.dst then false
  else match g.get coords.src with
  | none => false
  | some u =>
    if u.player ≠ player then false
    else if coords.src = coords.dst then true
    else
      let adjacent_coords := coords.src.iter_adjacent
      match g.get coords.dst with
      | none =>
        if u.type = .Tech ∨ u.type = .Virus then true
        else if adjacent_coords.any (fun c =>
            match g.get c with
            | some au => au.player ≠ u.player
            | none => false) then false
        else if u.player = .Attacker then
          coords.dst = ⟨coords.src.row - 1, coords.src.col⟩ ∨
            coords.dst = ⟨coords.src.row, coords.src.col - 1⟩
        else
          coords.dst = ⟨coords.src.row + 1, coords.src.col⟩ ∨
            coords.dst = ⟨coords.src.row, coords.src.col + 1⟩
      | some target =>
        if target.player = u.player ∧ u.repair_amount target > 0 then true
        else if target.player ≠ u.player then true
        else false

/-- The shared body of `perform_move` / `perform_move_for_AI` (identical in
the source except for the acting player and the validity gate); the
human-readable message strings are elided. -/
def Game.resolve_move (g : Game) (coords : CoordPair) (player : Player) : Game :=
  let dst_unit := g.get coords.dst
  let src_unit := g.get coords.src
  match dst_unit with
  | none =>
    (g.set coords.dst src_unit).set coords.src none
  | some dst_u =>
    if coords.dst = coords.src then
      match src_unit with
      | none => g
      | some src_u =>
        let g := g.set coords.src (some (src_u.mod_health (-src_u.health)))
        let g := g.remove_dead coords.src
        coords.src.iter_range 1 |>.foldl (fun g c => g.mod_health c (-2)) g
    else match src_unit with
    | none => g
    | some src_u =>
      if dst_u.player = player then
        g.set coords.dst (some (dst_u.mod_health (src_u.repair_amount dst_u)))
      else
        let dst_u' := dst_u.mod_health (-(src_u.damage_amount dst_u))
        let g := g.set coords.dst (some dst_u')
        let src_u' := src_u.mod_health (-(dst_u'.damage_amount src_u))
        let g := g.set coords.src (some src_u')
        let g := g.remove_dead coords.dst
        g.remove_dead coords.src

/-- `Game.perform_move`: validate against `is_valid_move`, then resolve. -/
def Game.perform_move (g : Game) (coords : CoordPair) : Bool × Game :=
  if g.is_valid_move coords then (true, g.resolve_move coords g.next_player)
  else (false, g)

/-- `Game.perform_move_for_AI`: resolve for an explicit player with no
validity gate; always reports success. -/
def Game.perform_move_for_AI (g : Game) (coords : CoordPair) (player : Player) : Bool × Game :=
  (true, g.resolve_move coords player)

/-- `Game.has_winner`: the turn limit (a Defender win) is checked before
the has-Command-unit flags. -/
def Game.has_winner (g : Game) : Option Player :=
  match g.options.max_turns with
  | some mt =>
    if g.turns_played ≥ mt then some .Defender
    else if g.attacker_has_ai then
      if g.defender_has_ai then none else some .Attacker
    else some .Defender
  | none =>
    if g.attacker_has_ai then
      if g.defender_has_ai then none else some .Attacker
    else some .Defender

/-- `Game.is_finished`. -/
def Game.is_finished (g : Game) : Bool := g.has_winner.isSome

/-- `Game.player_units`: a player's units, in row-major board order. -/
def Game.player_units (g : Game) (player : Player) : List (Coord × Unit) :=
  (CoordPair.from_dim g.options.dim).iter_rectangle.filterMap fun c =>
    match g.get c with
    | some u => if u.player = player then some (c, u) else none
    | none => none

/-- `Game.move_candidates_for_AI`: for each of the player's units, the
adjacent destinations passing `is_valid_move_for_AI`, then the
stay-in-place (self-destruct) pair. -/
def Game.move_candidates_for_AI (g : Game) (player : Player) : List CoordPair :=
  if g.has_winner.isSome then []
  else
    (g.player_units player).flatMap fun su =>
      (su.1.iter_adjacent.filterMap fun dst =>
        if g.is_valid_move_for_AI ⟨su.1, dst⟩ player then some (⟨su.1, dst⟩ : CoordPair)
        else none) ++ [⟨su.1, su.1⟩]

/-- `Game.compute_heuristic_e0`: pure material count, ±9999 per AI,
±3 per other unit. -/
def Game.compute_heuristic_e0 (g : Game) : Int :=
  (CoordPair.from_dim g.options.dim).iter_rectangle.foldl
    (fun score c =>
      match g.get c with
      | none => score
      | some u =>
        match u.player with
        | .Attacker => if u.type = .AI then score + 9999 else score + 3
        | .Defender => if u.type = .AI then score - 9999 else score - 3)
    0

/-- `Game.compute_heuristic_e1`: health-weighted material (Python float
division `health/9` is exact in `ℚ`). -/
def Game.compute_heuristic_e1 (g : Game) : ℚ :=
  (CoordPair.from_dim g.options.dim).iter_rectangle.foldl
    (fun score c =>
      match g.get c with
      | none => score
      | some u =>
        let w : ℚ := (u.health : ℚ) / 9
        match u.player with
        | .Attacker =>
          if u.type = .AI then score + 999 * w
          else if u.type = .Virus then score + 9 * w
          else if u.type = .Program then score + 7 * w
          else score + 3 * w
        | .Defender =>
          if u.type = .AI then score - 999 * w
          else if u.type = .Tech then score - 8 * w
          else if u.type = .Program then score - 8 * w
          else score - 3 * w)
    0

/-- Accumulator of `compute_heuristic_e2`'s main loop: the running score and
the remembered coordinates (attacker AI, defender AI, up to two attacker
Viruses, up to two defender Techs). -/
structure E2State where
  score : ℚ
  attackerAIcoord : Option Coord := none
  defenderAIcoord : Option Coord := none
  virus1 : Option Coord := none
  virus2 : Option Coord := none
  tech1 : Option Coord := none
  tech2 : Option Coord := none
deriving Repr

/-- One neighbour step of e2's attacker-AI adjacency bonus:
`+3*(9/health)` per friendly neighbour, `+5` once the count reaches 4.
`none` models the ZeroDivisionError the source raises when the AI's
health is 0 and a friendly neighbour exists. -/
def e2AttackerBonusStep (g : Game) (u : Unit) (st : Nat × ℚ) (c : Coord) :
    Option (Nat × ℚ) :=
  match g.get c with
  | some au =>
    if au.player = u.player then
      if u.health = 0 then none
      else
        let n := st.1 + 1
        let score := st.2 + 3 * ((9 : ℚ) / (u.health : ℚ))
        some (n, if n = 4 then score + 5 else score)
    else some st
  | none => some st

/-- One neighbour step of e2's defender-AI adjacency penalty:
`-40` per friendly neighbour, an extra `-50` when the count reaches 2. -/
def e2DefenderPenaltyStep (g : Game) (u : Unit) (st : Nat × ℚ) (c : Coord) :
    Nat × ℚ :=
  match g.get c with
  | some au =>
    if au.player = u.player then
      let n := st.1 + 1
      let score := st.2 - 40
      (n, if n = 2 then score - 50 else score)
    else st
  | none => st

/-- One cell of `compute_heuristic_e2`'s main loop. -/
def e2Cell (g : Game) (st : E2State) (c : Coord) : Option E2State :=
  match g.get c with
  | none => some st
  | some u =>
    let w : ℚ := (u.health : ℚ) / 9
    match u.player with
    | .Attacker =>
      if u.type = .AI then
        let score := st.score + 999 * w
        (c.iter_adjacent.foldlM (e2AttackerBonusStep g u) (0, score)).map fun p =>
          { st with score := p.2, attackerAIcoord := some c }
      else if u.type = .Virus then
        let score := st.score + 9 * w
        if st.virus1.isSome then some { st with score, virus2 := some c }
        else some { st with score, virus1 := some c }
      else if u.type = .Program then some { st with score := st.score + 7 * w }
      else some { st with score := st.score + 3 * w }
    | .Defender =>
      if u.type = .AI then
        let score := st.score - 999 * w
        let p := c.iter_adjacent.foldl (e2DefenderPenaltyStep g u) (0, score)
        some { st with score := p.2, defenderAIcoord := some c }
      else if u.type = .Tech then
        let score := st.score - 50 * w
        if st.tech1.isSome then some { st with score, tech2 := some c }
        else some { st with score, tech1 := some c }
      else if u.type = .Program then some { st with score := st.score - 40 * w }
      else some { st with score := st.score - 40 * w }

/-- Manhattan distance between two coordinates, as in e2's
`abs(row difference) + abs(col difference)` terms. -/
def manhattan (a b : Coord) : Int := |a.row - b.row| + |a.col - b.col|

/-- e2's two-Virus closing term: `+100 / max(d(V1, defender AI), d(V2,
defender AI))` when both Viruses and the Defender AI were seen; `none`
models a ZeroDivisionError. -/
def e2VirusPair (st : E2State) (score : ℚ) : Option ℚ :=
  match st.virus1, st.virus2, st.defenderAIcoord with
  | some v1, some v2, some dai =>
    let d := max (manhattan v1 dai) (manhattan v2 dai)
    if d = 0 then none else some (score + 100 / (d : ℚ))
  | _, _, _ => some score

/-- e2's some-Virus closing term: `+100 / d(V, defender AI) − 9` for the
second Virus when present, else the first. -/
def e2VirusSingle (st : E2State) (score : ℚ) : Option ℚ :=
  if (st.virus1.isSome ∨ st.virus2.isSome) ∧ st.defenderAIcoord.isSome then
    match (match st.virus2 with | none => st.virus1 | some v => some v),
          st.defenderAIcoord with
    | some vc, some dai =>
      let d := manhattan vc dai
      if d = 0 then none else some (score + 100 / (d : ℚ) - 9)
    | _, _ => none
  else some score

/-- e2's two-Tech closing term: `−50 / max(d(T1, attacker AI), d(T2,
attacker AI))`. -/
def e2TechPair (st : E2State) (score : ℚ) : Option ℚ :=
  match st.tech1, st.tech2, st.attackerAIcoord with
  | some t1, some t2, some aai =>
    let d := max (manhattan t1 aai) (manhattan t2 aai)
    if d = 0 then none else some (score - 50 / (d : ℚ))
  | _, _, _ => some score

/-- e2's some-Tech closing term: `−50 / d(T, attacker AI) + 9`. -/
def e2TechSingle (st : E2State) (score : ℚ) : Option ℚ :=
  if (st.tech1.isSome ∨ st.tech2.isSome) ∧ st.attackerAIcoord.isSome then
    match (match st.tech2 with | none => st.tech1 | some t => some t),
          st.attackerAIcoord with
    | some tc, some aai =>
      let d := manhattan tc aai
      if d = 0 then none else some (score - 50 / (d : ℚ) + 9)
    | _, _ => none
  else some score

/-- The closing distance terms of `compute_heuristic_e2`, in source order;
`none` models the ZeroDivisionError on a zero Manhattan distance. -/
def e2Distance (st : E2State) : Option ℚ :=
  ((e2VirusPair st st.score).bind (e2VirusSingle st)).bind fun score =>
    (e2TechPair st score).bind (e2TechSingle st)

/-- The loop invariant of e2's main scan: every remembered coordinate
holds a unit of the faction and type it was remembered for. -/
def E2StateOK (g : Game) (st : E2State) : Prop :=
  (∀ c, st.attackerAIcoord = some c →
    ∃ u, g.get c = some u ∧ u.player = .Attacker ∧ u.type = .AI) ∧
  (∀ c, st.defenderAIcoord = some c →
    ∃ u, g.get c = some u ∧ u.player = .Defender ∧ u.type = .AI) ∧
  (∀ c, st.virus1 = some c →
    ∃ u, g.get c = some u ∧ u.player = .Attacker ∧ u.type = .Virus) ∧
  (∀ c, st.virus2 = some c →
    ∃ u, g.get c = some u ∧ u.player = .Attacker ∧ u.type = .Virus) ∧
  (∀ c, st.tech1 = some c →
    ∃ u, g.get c = some u ∧ u.player = .Defender ∧ u.type = .Tech) ∧
  (∀ c, st.tech2 = some c →
    ∃ u, g.get c = some u ∧ u.player = .Defender ∧ u.type = .Tech)

/-- `Game.compute_heuristic_e2`: the health-weighted sums with positional
bonuses, then the inverse-Manhattan-distance terms; `none` models the
divisions by zero the source can raise. -/
def Game.compute_heuristic_e2 (g : Game) : Option ℚ :=
  ((CoordPair.from_dim g.options.dim).iter_rectangle.foldlM (e2Cell g)
    { score := 0 }).bind e2Distance

/-- The heuristic dispatch shared by `minimax` and `minimax_alphabeta`
(`options.heuristic` 0, 1, or anything else). -/
def Game.compute_heuristic (g : Game) : Option ℚ :=
  if g.options.heuristic = 0 then some (g.compute_heuristic_e0 : ℚ)
  else if g.options.heuristic = 1 then some g.compute_heuristic_e1
  else g.compute_heuristic_e2

/-- The candidate loop of `Game.minimax`, abstracted over the recursive
child evaluation.  State: (best score, best move, best child state).
`none` propagates a crash from a child (Python unpacking of a `None`
return).  The wall-clock break is omitted: every claim about the search
assumes the time cutoff never triggers. -/
def searchLoop (child : Game → Option (ℚ × Option CoordPair))
    (g : Game) (player : Player) :
    List CoordPair → ℚ × Option CoordPair × Option Game →
      Option (ℚ × Option CoordPair × Option Game)
  | [], st => some st
  | mc :: rest, (best, bm, bc) =>
    let cg := (g.perform_move_for_AI mc player).2
    match child cg with
    | none => none
    | some (cur, _) =>
      if (player = .Attacker ∧ cur > best) ∨ (player = .Defender ∧ cur < best) then
        searchLoop child g player rest (cur, some mc, some cg)
      else
        searchLoop child g player rest (best, bm, bc)

/-- `Game.minimax` with an explicit recursion budget (`fuel`); the source
recursion terminates because `depth` increments until it equals
`options.max_depth`, so any `fuel ≥ max_depth - depth` is faithful.
Returns `none` where the source would raise: an empty candidate list at an
interior node (its `return None` is unpacked by the caller), a loop that
never improved on the ±2000000000 sentinel (heuristic of a `None` child),
or a heuristic failure. -/
def Game.minimax (g : Game) (fuel : Nat) (depth : Nat) (player : Player) :
    Option (ℚ × Option CoordPair) :=
  if depth = g.options.max_depth ∨ g.has_winner.isSome then
    g.compute_heuristic.map fun s => (s, none)
  else
    match fuel with
    | 0 => none
    | fuel' + 1 =>
      let cands := g.move_candidates_for_AI player
      let best0 : ℚ := if player = .Defender then MAX_HEURISTIC_SCORE else MIN_HEURISTIC_SCORE
      if cands.isEmpty then none
      else
        match searchLoop (fun cg => cg.minimax fuel' (depth + 1) player.next)
            g player cands (best0, none, none) with
        | none => none
        | some (_, bm, bc) =>
          match bc with
          | none => none
          | some bcg => bcg.compute_heuristic.map fun s => (s, bm)

/-- The candidate loop of `Game.minimax_alphabeta`, abstracted over the
recursive child evaluation (which receives the current alpha and beta).
State: (best, best move, best child, alpha, beta, pruned).  The `Bool`
instruments the embedding: it records whether a `beta ≤ alpha` break fired
in this loop or in any evaluated descendant; it is not part of the source's
return value.  -/
def abLoop (child : Game → ℚ → ℚ → Option (ℚ × Option CoordPair × Bool))
    (g : Game) (player : Player) :
    List CoordPair → ℚ × Option CoordPair × Option Game × ℚ × ℚ × Bool →
      Option (ℚ × Option CoordPair × Option Game × Bool)
  | [], (best, bm, bc, _, _, fl) => some (best, bm, bc, fl)
  | mc :: rest, (best, bm, bc, alpha, beta, fl) =>
    let cg := (g.perform_move_for_AI mc player).2
    match child cg alpha beta with
    | none => none
    | some (cur, _, cfl) =>
      let fl := fl || cfl
      match player with
      | .Attacker =>
        let (best, bm, bc) :=
          if cur > best then (cur, some mc, some cg) else (best, bm, bc)
        let alpha := max alpha best
        if beta ≤ alpha then some (best, bm, bc, true)
        else abLoop child g player rest (best, bm, bc, alpha, beta, fl)
      | .Defender =>
        let (best, bm, bc) :=
          if cur < best then (cur, some mc, some cg) else (best, bm, bc)
        let beta := min beta best
        if beta ≤ alpha then some (best, bm, bc, true)
        else abLoop child g player rest (best, bm, bc, alpha, beta, fl)

/-- `Game.minimax_alphabeta`, instrumented with a `Bool` recording whether
any pruning break fired anywhere in the evaluated tree (the first two
components are the source's return value).  Crash modelling as in
`Game.minimax`. -/
def Game.minimax_alphabeta (g : Game) (fuel : Nat) (depth : Nat)
    (alpha beta : ℚ) (player : Player) : Option (ℚ × Option CoordPair × Bool) :=
  if depth = g.options.max_depth ∨ g.has_winner.isSome then
    g.compute_heuristic.map fun s => (s, none, false)
  else
    match fuel with
    | 0 => none
    | fuel' + 1 =>
      let cands := g.move_candidates_for_AI player
      let best0 : ℚ := if player = .Defender then MAX_HEURISTIC_SCORE else MIN_HEURISTIC_SCORE
      if cands.isEmpty then none
      else
        match abLoop (fun cg a b => cg.minimax_alphabeta fuel' (depth + 1) a b player.next)
            g player cands (best0, none, none, alpha, beta, false) with
        | none => none
        | some (_, bm, bc, fl) =>
          match bc with
          | none => none
          | some bcg => bcg.compute_heuristic.map fun s => (s, bm, fl)

/-- `Game.minimax_alphabeta` restricted to the source's return value
(score, selected move), dropping the pruning instrumentation. -/
def Game.minimax_alphabeta_result (g : Game) (fuel : Nat) (depth : Nat)
    (alpha beta : ℚ) (player : Player) : Option (ℚ × Option CoordPair) :=
  (g.minimax_alphabeta fuel depth alpha beta player).map fun r => (r.1, r.2.1)

/-- `Game.run_algorithm`: dispatch on `options.alpha_beta`, starting at
depth 1 with the full heuristic window. -/
def Game.run_algorithm (g : Game) (player : Player) (fuel : Nat) :
    Option (ℚ × Option CoordPair) :=
  if g.options.alpha_beta = false then g.minimax fuel 1 player
  else g.minimax_alphabeta_result fuel 1 MIN_HEURISTIC_SCORE MAX_HEURISTIC_SCORE player

/-- Zero the health of the acting player's first AI unit in board order, as
`suggest_move`'s timeout branch does (`unit.mod_health(-unit.health)` on the
shared unit object, with no `remove_dead` call). -/
def Game.zero_own_ai (g : Game) (player : Player) : Game :=
  match (g.player_units player).find? (fun cu => cu.2.type = .AI) with
  | some (c, u) => g.set c (some (u.mod_health (-u.health)))
  | none => g

/-- `Game.suggest_move`, with the elapsed wall-clock seconds of the search
as an explicit parameter.  On `elapsed > max_time` and the player owning an
AI unit, the source zeroes that unit's health in place and returns no move
with the message `Computer timed out!`; otherwise it returns the selected
move and its diagnostics (statistics text elided, tagged by message). -/
def Game.suggest_move (g : Game) (elapsed : ℚ) (fuel : Nat) :
    Option (Option CoordPair × Game × String) :=
  match g.run_algorithm g.next_player fuel with
  | none => none
  | some (_, move) =>
    if elapsed > g.options.max_time ∧
        (g.player_units g.next_player).any (fun cu => cu.2.type = .AI) then
      some (none, g.zero_own_ai g.next_player, "Computer timed out!")
    else
      some (move, g, "ok")

/-- Build a board cell function from a placement list (used only to state
concrete instances). -/
def boardOfList (l : List (Coord × Unit)) : Int → Int → Option Unit :=
  fun r c => (l.find? fun p => p.1.row = r ∧ p.1.col = c).map (·.2)

/-- The fixed initial deployment of `Game.__post_init__` for `dim = 5`
(`md = 4`). -/
def initialBoard : Int → Int → Option Unit :=
  boardOfList
    [(⟨0, 0⟩, ⟨.Defender, .AI, 9⟩),
     (⟨1, 0⟩, ⟨.Defender, .Tech, 9⟩),
     (⟨0, 1⟩, ⟨.Defender, .Tech, 9⟩),
     (⟨2, 0⟩, ⟨.Defender, .Firewall, 9⟩),
     (⟨0, 2⟩, ⟨.Defender, .Firewall, 9⟩),
     (⟨1, 1⟩, ⟨.Defender, .Program, 9⟩),
     (⟨4, 4⟩, ⟨.Attacker, .AI, 9⟩),
     (⟨3, 4⟩, ⟨.Attacker, .Virus, 9⟩),
     (⟨4, 3⟩, ⟨.Attacker, .Virus, 9⟩),
     (⟨2, 4⟩, ⟨.Attacker, .Program, 9⟩),
     (⟨4, 2⟩, ⟨.Attacker, .Program, 9⟩),
     (⟨3, 3⟩, ⟨.Attacker, .Firewall, 9⟩)]

/-- A 2×2 position (Attacker AI h9 at (0,1), Defender AI h1 at (0,0),
Defender Program h1 at (1,0)) searched to depth 4 with heuristic e0:
minimax and alpha-beta disagree on it. -/
def gC1 : Game where
  board := boardOfList
    [(⟨0, 1⟩, ⟨.Attacker, .AI, 9⟩),
     (⟨0, 0⟩, ⟨.Defender, .AI, 1⟩),
     (⟨1, 0⟩, ⟨.Defender, .Program, 1⟩)]
  next_player := .Defender
  options := { dim := 2, max_depth := 4, heuristic := 0 }

/-- A 3×3 position: Defender Program at (1,1) engaged by an Attacker Virus
at (0,1), with (2,1) empty. -/
def gC2 : Game where
  board := boardOfList
    [(⟨1, 1⟩, ⟨.Defender, .Program, 9⟩),
     (⟨0, 1⟩, ⟨.Attacker, .Virus, 9⟩)]
  next_player := .Defender
  options := { dim := 3 }

/-- A 3×3 position: a lone Attacker Virus at (0,0), cell (0,2) empty and
not adjacent to (0,0). -/
def gC3 : Game where
  board := boardOfList [(⟨0, 0⟩, ⟨.Attacker, .Virus, 9⟩)]
  next_player := .Attacker
  options := { dim := 3 }

/-- A 2×2 position: Defender Tech at (0,1) next to the Defender AI at
(0,0) already at full health. -/
def gC6 : Game where
  board := boardOfList
    [(⟨0, 0⟩, ⟨.Defender, .AI, 9⟩),
     (⟨0, 1⟩, ⟨.Defender, .Tech, 9⟩)]
  next_player := .Defender
  options := { dim := 2 }

/-- The default initial game (dim 5, Attacker to move) with `max_depth` 1,
so a search returns the static heuristic immediately. -/
def gC7 : Game where
  board := initialBoard
  options := { max_depth := 1 }

/-- A 2×2 position (each side just its AI) searched to depth 2: small
enough that alpha-beta never prunes. -/
def gC1w : Game where
  board := boardOfList
    [(⟨1, 1⟩, ⟨.Attacker, .AI, 9⟩),
     (⟨0, 0⟩, ⟨.Defender, .AI, 9⟩)]
  options := { dim := 2, max_depth := 2, heuristic := 0 }

/-- An empty-board game whose Defender Command flag is already cleared and
whose turn limit has been passed. -/
def gC8 : Game where
  board := boardOfList []
  turns_played := 5
  options := { dim := 1, max_turns := some 3 }
  defender_has_ai := false

/-- The faction's advance directions (spec §4.1): the Attacker faction may
only move up or left, the Defender faction down or right. -/
def advance_dst (p : Player) (src dst : Coord) : Prop :=
  match p with
  | .Attacker => dst = ⟨src.row - 1, src.col⟩ ∨ dst = ⟨src.row, src.col - 1⟩
  | .Defender => dst = ⟨src.row + 1, src.col⟩ ∨ dst = ⟨src.row, src.col + 1⟩

/-- Some enemy of faction `p` occupies cell `c`. -/
def enemy_at (g : Game) (p : Player) (c : Coord) : Prop :=
  ∃ w, g.get c = some w ∧ w.player ≠ p

theorem damage_table_nonneg (a b : UnitType) : 0 ≤ damage_table a b := by
  cases a <;> cases b <;> decide

theorem repair_table_nonneg (a b : UnitType) : 0 ≤ repair_table a b := by
  cases a <;> cases b <;> decide

theorem adjacent_ne {src dst : Coord} (h : dst ∈ src.iter_adjacent) : src ≠ dst := by
  simp only [Coord.iter_adjacent, List.mem_cons, List.mem_singleton,
    List.not_mem_nil, or_false] at h
  rcases h with rfl | rfl | rfl | rfl <;>
    (intro he; have hr := congrArg Coord.row he; have hc := congrArg Coord.col he;
     simp only at hr hc; omega)

theorem set_options (g : Game) (c : Coord) (u : Option Unit) :
    (g.set c u).options = g.options := by
  unfold Game.set; split <;> rfl

theorem set_next_player (g : Game) (c : Coord) (u : Option Unit) :
    (g.set c u).next_player = g.next_player := by
  unfold Game.set; split <;> rfl

theorem get_set_same (g : Game) (c : Coord) (u : Option Unit) :
    (g.set c u).get c = if g.is_valid_coord c then u else none := by
  unfold Game.set
  split_ifs with hv
  · show Game.get _ c = u
    unfold Game.get
    have hv' : Game.is_valid_coord
        { g with board := fun r k => if r = c.row ∧ k = c.col then u else g.board r k } c = true := hv
    simp only [hv', if_true]
    simp
  · unfold Game.get
    simp [hv]

theorem get_set_ne (g : Game) (c c' : Coord) (u : Option Unit) (h : c' ≠ c) :
    (g.set c u).get c' = g.get c' := by
  unfold Game.set
  split_ifs with hv
  · unfold Game.get
    have hne : ¬(c'.row = c.row ∧ c'.col = c.col) := by
      intro ⟨h1, h2⟩; exact h (Coord.ext h1 h2)
    have hv' : Game.is_valid_coord
        { g with board := fun r k => if r = c.row ∧ k = c.col then u else g.board r k } c' =
        g.is_valid_coord c' := rfl
    rw [hv']
    split_ifs with hc
    · simp [hne]
    · rfl
  · rfl

theorem remove_dead_options (g : Game) (c : Coord) :
    (g.remove_dead c).options = g.options := by
  unfold Game.remove_dead
  rcases g.get c with _ | u
  · rfl
  · simp only
    split_ifs <;> simp [set_options]

theorem remove_dead_next_player (g : Game) (c : Coord) :
    (g.remove_dead c).next_player = g.next_player := by
  unfold Game.remove_dead
  rcases g.get c with _ | u
  · rfl
  · simp only
    split_ifs <;> simp [set_next_player]

theorem get_remove_dead_ne (g : Game) (c c' : Coord) (h : c' ≠ c) :
    (g.remove_dead c).get c' = g.get c' := by
  unfold Game.remove_dead
  rcases g.get c with _ | u
  · rfl
  · simp only
    split_ifs with h1 h2 h3
    · exact get_set_ne g c c' none h
    · exact get_set_ne g c c' none h
    · exact get_set_ne g c c' none h
    · rfl

theorem get_remove_dead_same (g : Game) (c : Coord) :
    (g.remove_dead c).get c =
      match g.get c with
      | none => none
      | some u => if u.is_alive then some u else none := by
  unfold Game.remove_dead
  rcases hg : g.get c with _ | u
  · exact hg
  · simp only
    by_cases ha : u.is_alive = true
    · simp [ha, hg]
    · have hv : g.is_valid_coord c = true := by
        by_contra hv
        simp only [Bool.not_eq_true] at hv
        rw [Game.get, hv] at hg
        simp at hg
      have hgot : (g.set c none).get c = none := by
        rw [get_set_same, hv]; rfl
      simp only [Bool.not_eq_true] at ha
      simp only [ha, Bool.not_false, if_true, Bool.false_eq_true, if_false]
      split_ifs with h1 h2
      · exact hgot
      · exact hgot
      · exact hgot

theorem get_mod_health_ne (g : Game) (c c' : Coord) (d : Int) (h : c' ≠ c) :
    (g.mod_health c d).get c' = g.get c' := by
  unfold Game.mod_health
  rcases g.get c with _ | u
  · rfl
  · simp only
    rw [get_remove_dead_ne _ _ _ h, get_set_ne _ _ _ _ h]

theorem mod_health_options (g : Game) (c : Coord) (d : Int) :
    (g.mod_health c d).options = g.options := by
  unfold Game.mod_health
  rcases g.get c with _ | u
  · rfl
  · simp [remove_dead_options, set_options]

theorem get_mod_health_same (g : Game) (c : Coord) (d : Int) :
    (g.mod_health c d).get c =
      match g.get c with
      | none => none
      | some u =>
        if (u.mod_health d).is_alive then some (u.mod_health d) else none := by
  unfold Game.mod_health
  rcases hg : g.get c with _ | u
  · exact hg
  · have hv : g.is_valid_coord c = true := by
      by_contra hv
      simp only [Bool.not_eq_true] at hv
      rw [Game.get, hv] at hg
      simp at hg
    simp only
    rw [get_remove_dead_same]
    have hset : (g.set c (some (u.mod_health d))).get c = some (u.mod_health d) := by
      rw [get_set_same, hv]; rfl
    rw [hset]

theorem iter_range_one (c : Coord) :
    c.iter_range 1 =
      [⟨c.row - 1, c.col - 1⟩, ⟨c.row - 1, c.col⟩, ⟨c.row - 1, c.col + 1⟩,
       ⟨c.row, c.col - 1⟩, ⟨c.row, c.col⟩, ⟨c.row, c.col + 1⟩,
       ⟨c.row + 1, c.col - 1⟩, ⟨c.row + 1, c.col⟩, ⟨c.row + 1, c.col + 1⟩] := by
  have h3 : List.range (2 * 1 + 1) = [0, 1, 2] := rfl
  simp only [Coord.iter_range, h3, List.flatMap_cons, List.flatMap_nil, List.map_cons,
    List.map_nil, List.append_nil, List.cons_append, List.nil_append, List.cons.injEq,
    Coord.mk.injEq, and_true]
  norm_num
  omega

theorem mem_iter_range_one (c c' : Coord) :
    c' ∈ c.iter_range 1 ↔
      c.row - 1 ≤ c'.row ∧ c'.row ≤ c.row + 1 ∧ c.col - 1 ≤ c'.col ∧ c'.col ≤ c.col + 1 := by
  obtain ⟨a, b⟩ := c
  obtain ⟨a', b'⟩ := c'
  rw [iter_range_one]
  simp only [List.mem_cons, List.not_mem_nil, or_false, Coord.mk.injEq]
  omega

theorem nodup_iter_range_one (c : Coord) : (c.iter_range 1).Nodup := by
  obtain ⟨a, b⟩ := c
  rw [iter_range_one]
  simp only [List.nodup_cons, List.mem_cons, List.not_mem_nil, or_false, List.nodup_nil,
    and_true, Coord.mk.injEq, not_or]
  push_neg
  simp only [true_implies, not_false_eq_true, and_true]
  omega

theorem get_foldl_mod_health (cs : List Coord) (g : Game) (c : Coord) (hnd : cs.Nodup) :
    (cs.foldl (fun gg cc => gg.mod_health cc (-2)) g).get c =
      if c ∈ cs then
        match g.get c with
        | none => none
        | some u =>
          if (u.mod_health (-2)).is_alive then some (u.mod_health (-2)) else none
      else g.get c := by
  induction cs generalizing g with
  | nil => simp
  | cons c0 cs ih =>
    rw [List.foldl_cons]
    rcases List.nodup_cons.mp hnd with ⟨hc0, hnd'⟩
    by_cases hc : c = c0
    · subst hc
      rw [ih _ hnd']
      rw [if_neg hc0, if_pos (List.mem_cons_self c cs)]
      rw [get_mod_health_same]
    · rw [ih _ hnd']
      rw [get_mod_health_ne _ _ _ _ hc]
      by_cases hm : c ∈ cs
      · rw [if_pos hm, if_pos (by simp [hm] : c ∈ c0 :: cs)]
      · rw [if_neg hm, if_neg (by simp [hc, hm] : ¬ c ∈ c0 :: cs)]

theorem mod_health_two (w : Unit) (h9 : w.health ≤ 9) :
    (if (w.mod_health (-2)).is_alive = true then some (w.mod_health (-2)) else none) =
      if w.health ≤ 2 then none else some { w with health := w.health - 2 } := by
  unfold Unit.mod_health Unit.is_alive
  obtain ⟨p, t, h⟩ := w
  simp only at h9 ⊢
  split_ifs <;> simp_all [Unit.mk.injEq] <;> omega

/-- C5: a legal self-destruct zeroes and removes the acting unit, applies
exactly −2 health (clamped at 0, with removal at 0) to every unit in the
3×3 neighbourhood, friendly units included and empty cells unaffected, and
leaves every cell outside that neighbourhood unchanged. -/
theorem C5_self_destruct (g : Game) (src : Coord) (u : Unit)
    (hsv : g.is_valid_coord src = true)
    (hsrc : g.get src = some u)
    (hact : u.player = g.next_player)
    (hinv : ∀ c w, g.get c = some w → w.health ≤ 9) :
    (g.perform_move ⟨src, src⟩).1 = true ∧
    (g.perform_move ⟨src, src⟩).2.get src = none ∧
    ∀ c : Coord, c ≠ src →
      (g.perform_move ⟨src, src⟩).2.get c =
        (if src.row - 1 ≤ c.row ∧ c.row ≤ src.row + 1 ∧
            src.col - 1 ≤ c.col ∧ c.col ≤ src.col + 1 then
          match g.get c with
          | none => none
          | some w => if w.health ≤ 2 then none else some { w with health := w.health - 2 }
        else g.get c) := by
  have hvalid : g.is_valid_move ⟨src, src⟩ = true := by
    unfold Game.is_valid_move
    simp [hsv, hsrc, ← hact]
  have hpm : g.perform_move ⟨src, src⟩ = (true, g.resolve_move ⟨src, src⟩ g.next_player) := by
    unfold Game.perform_move
    rw [hvalid]
    simp
  set u0 : Unit := u.mod_health (-u.health) with hu0
  have hu0h : u0.health = 0 := by
    rw [hu0]
    unfold Unit.mod_health
    simp
  have hu0dead : u0.is_alive = false := by
    unfold Unit.is_alive
    rw [hu0h]
    decide
  set g1 : Game := g.set src (some u0) with hg1
  set g2 : Game := g1.remove_dead src with hg2
  have hres : g.resolve_move ⟨src, src⟩ g.next_player =
      (src.iter_range 1).foldl (fun gg cc => gg.mod_health cc (-2)) g2 := by
    unfold Game.resolve_move
    rw [hsrc]
    simp only [if_pos rfl, if_true]
  have hg1src : g1.get src = some u0 := by
    rw [hg1, get_set_same, hsv]
    rfl
  have hg2src : g2.get src = none := by
    rw [hg2, get_remove_dead_same, hg1src]
    simp [hu0dead]
  have hg2ne : ∀ c : Coord, c ≠ src → g2.get c = g.get c := by
    intro c hc
    rw [hg2, get_remove_dead_ne _ _ _ hc, hg1, get_set_ne _ _ _ _ hc]
  refine ⟨by rw [hpm], ?_, ?_⟩
  · rw [hpm]
    simp only
    rw [hres, get_foldl_mod_health _ _ _ (nodup_iter_range_one src)]
    rw [if_pos ((mem_iter_range_one src src).mpr (by omega)), hg2src]
  · intro c hc
    rw [hpm]
    simp only
    rw [hres, get_foldl_mod_health _ _ _ (nodup_iter_range_one src)]
    by_cases hm : c ∈ src.iter_range 1
    · rw [if_pos hm, if_pos ((mem_iter_range_one src c).mp hm), hg2ne c hc]
      rcases hgc : g.get c with _ | w
      · rfl
      · have hw9 : w.health ≤ 9 := hinv c w hgc
        exact mod_health_two w hw9
    · rw [if_neg hm, if_neg (fun hb => hm ((mem_iter_range_one src c).mpr hb)), hg2ne c hc]

theorem mod_health_type (u : Unit) (d : Int) : (u.mod_health d).type = u.type := by
  simp only [Unit.mod_health]
  split_ifs <;> rfl

theorem mod_health_player (u : Unit) (d : Int) : (u.mod_health d).player = u.player := by
  simp only [Unit.mod_health]
  split_ifs <;> rfl

theorem set_is_valid_coord (g : Game) (c c' : Coord) (u : Option Unit) :
    (g.set c u).is_valid_coord c' = g.is_valid_coord c' := by
  unfold Game.is_valid_coord
  rw [set_options]

theorem damage_result (a b : Unit) (hb0 : 0 ≤ b.health) (hb9 : b.health ≤ 9) :
    (if (b.mod_health (-(a.damage_amount b))).is_alive = true
     then some (b.mod_health (-(a.damage_amount b))) else none) =
      (if b.health ≤ damage_table a.type b.type then none
       else some { b with health := b.health - damage_table a.type b.type }) := by
  have hd0 : 0 ≤ damage_table a.type b.type := damage_table_nonneg _ _
  obtain ⟨p, t, h⟩ := b
  simp only [Unit.damage_amount, Unit.mod_health, Unit.is_alive]
  split_ifs <;> simp_all [Unit.mk.injEq] <;> omega

theorem boardOfList_health (l : List (Coord × Unit)) (hl : ∀ p ∈ l, p.2.health ≤ 9)
    (r k : Int) (w : Unit) (h : boardOfList l r k = some w) : w.health ≤ 9 := by
  unfold boardOfList at h
  rcases hf : l.find? (fun p => p.1.row = r ∧ p.1.col = k) with _ | p
  · rw [hf] at h
    simp at h
  · rw [hf] at h
    simp only [Option.map, Option.some.injEq] at h
    subst h
    exact hl p (List.mem_of_find?_eq_some hf)

theorem get_health_of_boardOfList (g : Game) (l : List (Coord × Unit))
    (hb : g.board = boardOfList l) (hl : ∀ p ∈ l, p.2.health ≤ 9) :
    ∀ c w, g.get c = some w → w.health ≤ 9 := by
  intro c w h
  unfold Game.get at h
  split_ifs at h with hv
  rw [hb] at h
  exact boardOfList_health l hl _ _ _ h

/-- C4: resolving a legal attack move applies simultaneous mutual damage:
the defender ends at `max 0 (health − table(attacker, defender))` and the
attacker at `max 0 (health − table(defender, attacker))` — both decrements
always occur — and a unit reaching 0 is removed from the board; the
AI-variant resolution produces the same state. -/
theorem C4_attack_mutual (g : Game) (src dst : Coord) (a b : Unit)
    (hsv : g.is_valid_coord src = true) (hdv : g.is_valid_coord dst = true)
    (hsrc : g.get src = some a) (hdst : g.get dst = some b)
    (hadj : dst ∈ src.iter_adjacent)
    (hact : a.player = g.next_player)
    (henemy : b.player ≠ a.player)
    (hb0 : 0 ≤ b.health) (hb9 : b.health ≤ 9)
    (ha0 : 0 ≤ a.health) (ha9 : a.health ≤ 9) :
    (g.perform_move ⟨src, dst⟩).1 = true ∧
    (g.perform_move ⟨src, dst⟩).2.get dst =
      (if b.health ≤ damage_table a.type b.type then none
       else some { b with health := b.health - damage_table a.type b.type }) ∧
    (g.perform_move ⟨src, dst⟩).2.get src =
      (if a.health ≤ damage_table b.type a.type then none
       else some { a with health := a.health - damage_table b.type a.type }) ∧
    (g.perform_move_for_AI ⟨src, dst⟩ a.player).2 = (g.perform_move ⟨src, dst⟩).2 := by
  have hnd : src ≠ dst := adjacent_ne hadj
  have hvalid : g.is_valid_move ⟨src, dst⟩ = true := by
    unfold Game.is_valid_move
    simp only [hsv, hdv, hsrc, hdst, Bool.not_true, Bool.or_self, Bool.false_eq_true,
      if_false]
    rw [if_neg (show ¬a.player ≠ g.next_player by simp [hact]),
      if_neg (show ¬src = dst from hnd),
      if_neg (show ¬dst ∉ src.iter_adjacent by simpa using hadj),
      if_neg (show ¬(b.player = a.player ∧ a.repair_amount b > 0) by simp [henemy]),
      if_pos henemy]
  have hpm : g.perform_move ⟨src, dst⟩ = (true, g.resolve_move ⟨src, dst⟩ g.next_player) := by
    unfold Game.perform_move
    rw [hvalid]
    simp
  set b' : Unit := b.mod_health (-(a.damage_amount b)) with hb'
  set a' : Unit := a.mod_health (-(b'.damage_amount a)) with ha'
  set g1 : Game := g.set dst (some b') with hg1
  set g2 : Game := g1.set src (some a') with hg2
  have hres : g.resolve_move ⟨src, dst⟩ g.next_player =
      (g2.remove_dead dst).remove_dead src := by
    unfold Game.resolve_move
    rw [hdst, hsrc]
    simp only
    rw [if_neg (by simpa using hnd.symm), if_neg (by rw [← hact]; exact henemy)]
  have hg2dst : g2.get dst = some b' := by
    rw [hg2, get_set_ne _ _ _ _ hnd.symm, hg1, get_set_same, if_pos hdv]
  have hg2src : g2.get src = some a' := by
    rw [hg2, get_set_same, set_is_valid_coord, if_pos hsv]
  have hfin : ((g2.remove_dead dst).remove_dead src).get dst =
      (if b'.is_alive = true then some b' else none) := by
    rw [get_remove_dead_ne _ _ _ hnd.symm, get_remove_dead_same, hg2dst]
  have hfin2 : ((g2.remove_dead dst).remove_dead src).get src =
      (if a'.is_alive = true then some a' else none) := by
    rw [get_remove_dead_same, get_remove_dead_ne _ _ _ hnd, hg2src]
  have hbtype : b'.type = b.type := by rw [hb']; exact mod_health_type _ _
  refine ⟨by rw [hpm], ?_, ?_, ?_⟩
  · rw [hpm]
    simp only
    rw [hres, hfin, hb']
    exact damage_result a b hb0 hb9
  · rw [hpm]
    simp only
    rw [hres, hfin2, ha']
    have := damage_result b' a ha0 ha9
    rw [hbtype] at this
    exact this
  · rw [hpm]
    unfold Game.perform_move_for_AI
    simp only
    rw [hact]

/-- Witness for C4 on `gC1`: the Defender AI (health 1) at (0,0) attacks
the Attacker AI (health 9) at (0,1); the target drops to 6, the attacker
takes the counter-damage 3 ≥ 1 and is removed. -/
theorem C4_attack_mutual_witness :
    (gC1.perform_move ⟨⟨0, 0⟩, ⟨0, 1⟩⟩).1 = true ∧
    (gC1.perform_move ⟨⟨0, 0⟩, ⟨0, 1⟩⟩).2.get ⟨0, 1⟩ = some ⟨.Attacker, .AI, 6⟩ ∧
    (gC1.perform_move ⟨⟨0, 0⟩, ⟨0, 1⟩⟩).2.get ⟨0, 0⟩ = none := by
  obtain ⟨h1, h2, h3, _⟩ :=
    C4_attack_mutual gC1 ⟨0, 0⟩ ⟨0, 1⟩ ⟨.Defender, .AI, 1⟩ ⟨.Attacker, .AI, 9⟩
      (by decide) (by decide) (by decide) (by decide) (by decide) (by decide)
      (by decide) (by decide) (by decide) (by decide) (by decide)
  refine ⟨h1, ?_, ?_⟩
  · rw [h2]
    decide
  · rw [h3]
    decide

/-- Witness for C5 on `gC2`: the Defender Program at (1,1) self-destructs;
it is removed and the Attacker Virus at (0,1) drops from 9 to 7. -/
theorem C5_self_destruct_witness :
    (gC2.perform_move ⟨⟨1, 1⟩, ⟨1, 1⟩⟩).1 = true ∧
    (gC2.perform_move ⟨⟨1, 1⟩, ⟨1, 1⟩⟩).2.get ⟨1, 1⟩ = none ∧
    (gC2.perform_move ⟨⟨1, 1⟩, ⟨1, 1⟩⟩).2.get ⟨0, 1⟩ = some ⟨.Attacker, .Virus, 7⟩ := by
  obtain ⟨h1, h2, h3⟩ :=
    C5_self_destruct gC2 ⟨1, 1⟩ ⟨.Defender, .Program, 9⟩ (by decide) (by decide) (by decide)
      (get_health_of_boardOfList gC2 _ rfl (by decide))
  refine ⟨h1, h2, ?_⟩
  rw [h3 ⟨0, 1⟩ (by decide)]
  decide

theorem any_enemy_eq_true {g : Game} {p : Player} {L : List Coord}
    (h : ∃ c ∈ L, enemy_at g p c) :
    (L.any fun c => match g.get c with
      | some au => au.player ≠ p
      | none => false) = true := by
  obtain ⟨c, hc, w, hw, hne⟩ := h
  rw [List.any_eq_true]
  refine ⟨c, hc, ?_⟩
  rw [hw]
  simpa using hne

theorem any_enemy_eq_false {g : Game} {p : Player} {L : List Coord}
    (h : ∀ c ∈ L, ¬ enemy_at g p c) :
    (L.any fun c => match g.get c with
      | some au => au.player ≠ p
      | none => false) = false := by
  rw [List.any_eq_false]
  intro c hc
  rcases hgc : g.get c with _ | w
  · simp
  · simp only [decide_eq_false_iff_not, Decidable.not_not]
    by_contra hne
    exact h c hc ⟨w, hgc, by simpa using hne⟩

/-- C2 (amended): for `is_valid_move_for_AI` the claim holds as stated: a
non-Tech/non-Virus unit moving to an adjacent empty cell is rejected when
any of its 4 neighbours holds an enemy, and otherwise accepted exactly in
the faction's advance directions.  For `is_valid_move`, the membership test
has already consumed the neighbour generator up to the destination, so only
an enemy on a neighbour strictly after the destination (in the order up,
left, down, right) immobilizes; with no enemy on those remaining
neighbours the move is accepted exactly in the advance directions. -/
theorem C2_engagement (g : Game) (src dst : Coord) (u : Unit)
    (hsv : g.is_valid_coord src = true) (hdv : g.is_valid_coord dst = true)
    (hsrc : g.get src = some u)
    (htech : u.type ≠ .Tech) (hvirus : u.type ≠ .Virus)
    (hdst : g.get dst = none) (hadj : dst ∈ src.iter_adjacent) :
    ((∃ c ∈ src.iter_adjacent, enemy_at g u.player c) →
       g.is_valid_move_for_AI ⟨src, dst⟩ u.player = false) ∧
    ((∀ c ∈ src.iter_adjacent, ¬ enemy_at g u.player c) →
       (g.is_valid_move_for_AI ⟨src, dst⟩ u.player = true ↔ advance_dst u.player src dst)) ∧
    (u.player = g.next_player →
      ((∃ c ∈ afterFirst dst src.iter_adjacent, enemy_at g u.player c) →
         g.is_valid_move ⟨src, dst⟩ = false) ∧
      ((∀ c ∈ afterFirst dst src.iter_adjacent, ¬ enemy_at g u.player c) →
         (g.is_valid_move ⟨src, dst⟩ = true ↔ advance_dst u.player src dst))) := by
  have hnd : src ≠ dst := adjacent_ne hadj
  have hty : ¬(u.type = .Tech ∨ u.type = .Virus) := by
    rintro (h | h)
    exacts [htech h, hvirus h]
  have hdir : ∀ b : Bool,
      ((if u.player = .Attacker then
          (decide (dst = ⟨src.row - 1, src.col⟩ ∨ dst = ⟨src.row, src.col - 1⟩))
        else
          (decide (dst = ⟨src.row + 1, src.col⟩ ∨ dst = ⟨src.row, src.col + 1⟩))) = true ↔
        advance_dst u.player src dst) := by
    intro _
    cases hp : u.player <;> simp [advance_dst, hp]
  refine ⟨?_, ?_, ?_⟩
  · intro hex
    unfold Game.is_valid_move_for_AI
    simp only [hsv, hdv, hsrc, hdst, Bool.not_true, Bool.or_self, Bool.false_eq_true,
      if_false]
    rw [if_neg (show ¬u.player ≠ u.player by simp), if_neg hnd, if_neg hty,
      if_pos (any_enemy_eq_true hex)]
  · intro hall
    unfold Game.is_valid_move_for_AI
    simp only [hsv, hdv, hsrc, hdst, Bool.not_true, Bool.or_self, Bool.false_eq_true,
      if_false]
    rw [if_neg (show ¬u.player ≠ u.player by simp), if_neg hnd, if_neg hty,
      if_neg (fun hcond => by
        rw [any_enemy_eq_false hall] at hcond
        exact Bool.false_ne_true hcond)]
    exact hdir true
  · intro hact
    constructor
    · intro hex
      unfold Game.is_valid_move
      simp only [hsv, hdv, hsrc, hdst, Bool.not_true, Bool.or_self, Bool.false_eq_true,
        if_false]
      rw [if_neg (show ¬u.player ≠ g.next_player by simp [hact]), if_neg hnd,
        if_neg (show ¬dst ∉ src.iter_adjacent by simpa using hadj), if_neg hty,
        if_pos (any_enemy_eq_true hex)]
    · intro hall
      unfold Game.is_valid_move
      simp only [hsv, hdv, hsrc, hdst, Bool.not_true, Bool.or_self, Bool.false_eq_true,
        if_false]
      rw [if_neg (show ¬u.player ≠ g.next_player by simp [hact]), if_neg hnd,
        if_neg (show ¬dst ∉ src.iter_adjacent by simpa using hadj), if_neg hty,
        if_neg (fun hcond => by
        rw [any_enemy_eq_false hall] at hcond
        exact Bool.false_ne_true hcond)]
      exact hdir true

/-- Witness for C2 on `gC2`: the engaged Defender Program at (1,1) (enemy
Virus at (0,1)) is correctly immobilized by `is_valid_move_for_AI`. -/
theorem C2_engagement_witness :
    gC2.is_valid_move_for_AI ⟨⟨1, 1⟩, ⟨2, 1⟩⟩ .Defender = false :=
  (C2_engagement gC2 ⟨1, 1⟩ ⟨2, 1⟩ ⟨.Defender, .Program, 9⟩ (by decide) (by decide)
      (by decide) (by decide) (by decide) (by decide) (by decide)).1
    ⟨⟨0, 1⟩, by decide, ⟨.Attacker, .Virus, 9⟩, by decide, by decide⟩

/-- C3 (amended): the adjacency restriction holds for `is_valid_move`: a
move with distinct source and destination is accepted only when the
destination is one of the 4 orthogonal neighbours of the source.
(`is_valid_move_for_AI` performs no such test; see the counterexample.) -/
theorem C3_adjacency (g : Game) (coords : CoordPair)
    (hne : coords.src ≠ coords.dst)
    (h : g.is_valid_move coords = true) :
    coords.dst ∈ coords.src.iter_adjacent := by
  by_cases hmem : coords.dst ∈ coords.src.iter_adjacent
  · exact hmem
  exfalso
  rcases hg : g.get coords.src with _ | u <;>
    simp only [Game.is_valid_move, hg] at h
  · split_ifs at h
  · split_ifs at h

/-- Witness for C3: the accepted Defender move (1,1)→(2,1) on `gC2` indeed
targets an orthogonal neighbour. -/
theorem C3_adjacency_witness : (⟨2, 1⟩ : Coord) ∈ (⟨1, 1⟩ : Coord).iter_adjacent :=
  C3_adjacency gC2 ⟨⟨1, 1⟩, ⟨2, 1⟩⟩ (by decide) (by decide)

/-- C6 (amended): a move onto an adjacent friendly unit is legal iff the
acting unit's repair-table entry for the target's type is positive AND the
target is below full health (the capped `repair_amount` must be positive),
in both legality predicates. -/
theorem C6_repair_legality (g : Game) (src dst : Coord) (u t : Unit)
    (hsv : g.is_valid_coord src = true) (hdv : g.is_valid_coord dst = true)
    (hsrc : g.get src = some u) (hdst : g.get dst = some t)
    (hadj : dst ∈ src.iter_adjacent)
    (hfriend : t.player = u.player)
    (hact : u.player = g.next_player)
    (th9 : t.health ≤ 9) :
    (g.is_valid_move ⟨src, dst⟩ = true ↔
      (repair_table u.type t.type > 0 ∧ t.health < 9)) ∧
    (g.is_valid_move_for_AI ⟨src, dst⟩ u.player = true ↔
      (repair_table u.type t.type > 0 ∧ t.health < 9)) := by
  have hnd : src ≠ dst := adjacent_ne hadj
  have h0 := repair_table_nonneg u.type t.type
  have hrep : u.repair_amount t > 0 ↔ (repair_table u.type t.type > 0 ∧ t.health < 9) := by
    simp only [Unit.repair_amount]
    split_ifs <;> omega
  have hfin : ∀ b : Bool,
      ((if t.player = u.player ∧ u.repair_amount t > 0 then true
        else if t.player ≠ u.player then true else false) = true ↔
        (repair_table u.type t.type > 0 ∧ t.health < 9)) := by
    intro _
    by_cases hr : u.repair_amount t > 0
    · rw [if_pos ⟨hfriend, hr⟩]
      simp only [true_iff]
      exact hrep.mp hr
    · rw [if_neg (fun hc => hr hc.2), if_neg (by simp [hfriend])]
      simp only [Bool.false_eq_true, false_iff]
      exact fun hc => hr (hrep.mpr hc)
  constructor
  · unfold Game.is_valid_move
    simp only [hsv, hdv, hsrc, hdst, Bool.not_true, Bool.or_self, Bool.false_eq_true,
      if_false]
    rw [if_neg (show ¬u.player ≠ g.next_player by simp [hact]), if_neg hnd,
      if_neg (show ¬dst ∉ src.iter_adjacent by simpa using hadj)]
    exact hfin true
  · unfold Game.is_valid_move_for_AI
    simp only [hsv, hdv, hsrc, hdst, Bool.not_true, Bool.or_self, Bool.false_eq_true,
      if_false]
    rw [if_neg (show ¬u.player ≠ u.player by simp), if_neg hnd]
    exact hfin true

/-- Witness for C6 on `gC6`: the Tech→AI repair move against a full-health
AI is rejected by both predicates (positive table entry, health 9). -/
theorem C6_repair_legality_witness :
    gC6.is_valid_move ⟨⟨0, 1⟩, ⟨0, 0⟩⟩ = false ∧
    gC6.is_valid_move_for_AI ⟨⟨0, 1⟩, ⟨0, 0⟩⟩ .Defender = false := by
  obtain ⟨h1, h2⟩ :=
    C6_repair_legality gC6 ⟨0, 1⟩ ⟨0, 0⟩ ⟨.Defender, .Tech, 9⟩ ⟨.Defender, .AI, 9⟩
      (by decide) (by decide) (by decide) (by decide) (by decide) (by decide)
      (by decide) (by decide)
  constructor
  · cases hb : gC6.is_valid_move ⟨⟨0, 1⟩, ⟨0, 0⟩⟩
    · rfl
    · exact absurd (h1.mp hb) (by decide)
  · cases hb : gC6.is_valid_move_for_AI ⟨⟨0, 1⟩, ⟨0, 0⟩⟩ .Defender
    · rfl
    · exact absurd (h2.mp hb) (by decide)

theorem manhattan_nonneg (a b : Coord) : 0 ≤ manhattan a b := by
  unfold manhattan
  have h1 := abs_nonneg (a.row - b.row)
  have h2 := abs_nonneg (a.col - b.col)
  omega

theorem distinct_cells {g : Game} {c1 c2 : Coord} {u1 u2 : Unit}
    (h1 : g.get c1 = some u1) (h2 : g.get c2 = some u2)
    (hne : u1.player ≠ u2.player) : manhattan c1 c2 ≠ 0 := by
  intro h0
  have hr := abs_nonneg (c1.row - c2.row)
  have hc := abs_nonneg (c1.col - c2.col)
  unfold manhattan at h0
  have hre : |c1.row - c2.row| = 0 := by omega
  have hce : |c1.col - c2.col| = 0 := by omega
  have hceq : c1 = c2 := by
    have h1' := abs_eq_zero.mp hre
    have h2' := abs_eq_zero.mp hce
    ext
    · omega
    · omega
  subst hceq
  rw [h1] at h2
  injection h2 with h2
  exact hne (by rw [h2])

theorem e2AttackerBonus_total (g : Game) (u : Unit) (hu : ¬u.health = 0)
    (L : List Coord) (st : Nat × ℚ) :
    (L.foldlM (e2AttackerBonusStep g u) st).isSome = true := by
  induction L generalizing st with
  | nil => rfl
  | cons c L ih =>
    have hstep : ∃ st', e2AttackerBonusStep g u st c = some st' := by
      unfold e2AttackerBonusStep
      rcases g.get c with _ | au
      · exact ⟨st, rfl⟩
      · simp only
        by_cases h1 : au.player = u.player
        · rw [if_pos h1, if_neg hu]
          exact ⟨_, rfl⟩
        · rw [if_neg h1]
          exact ⟨st, rfl⟩
    obtain ⟨st', hst'⟩ := hstep
    rw [List.foldlM_cons, hst']
    simpa using ih st'

theorem e2Cell_ok (g : Game) (st : E2State) (c : Coord)
    (hinv : ∀ c w, g.get c = some w → 1 ≤ w.health)
    (hok : E2StateOK g st) :
    ∃ st', e2Cell g st c = some st' ∧ E2StateOK g st' := by
  obtain ⟨hA, hD, hV1, hV2, hT1, hT2⟩ := hok
  unfold e2Cell
  rcases hgc : g.get c with _ | u
  · exact ⟨st, rfl, hA, hD, hV1, hV2, hT1, hT2⟩
  · simp only
    have hu1 : 1 ≤ u.health := hinv c u hgc
    cases hp : u.player
    · dsimp only
      by_cases hAI : u.type = .AI
      · rw [if_pos hAI]
        have hfold := e2AttackerBonus_total g u (by omega) c.iter_adjacent
          (0, st.score + 999 * ((u.health : ℚ) / 9))
        obtain ⟨p, hfp⟩ := Option.isSome_iff_exists.mp hfold
        rw [hfp]
        refine ⟨_, rfl, ?_, hD, hV1, hV2, hT1, hT2⟩
        intro c' hc'
        injection hc' with hc'
        exact hc' ▸ ⟨u, hgc, hp, hAI⟩
      · rw [if_neg hAI]
        by_cases hVi : u.type = .Virus
        · rw [if_pos hVi]
          by_cases hv1 : st.virus1.isSome
          · rw [if_pos hv1]
            refine ⟨_, rfl, hA, hD, hV1, ?_, hT1, hT2⟩
            intro c' hc'
            injection hc' with hc'
            exact hc' ▸ ⟨u, hgc, hp, hVi⟩
          · rw [if_neg hv1]
            refine ⟨_, rfl, hA, hD, ?_, hV2, hT1, hT2⟩
            intro c' hc'
            injection hc' with hc'
            exact hc' ▸ ⟨u, hgc, hp, hVi⟩
        · rw [if_neg hVi]
          by_cases hPr : u.type = .Program
          · rw [if_pos hPr]
            exact ⟨_, rfl, hA, hD, hV1, hV2, hT1, hT2⟩
          · rw [if_neg hPr]
            exact ⟨_, rfl, hA, hD, hV1, hV2, hT1, hT2⟩
    · dsimp only
      by_cases hAI : u.type = .AI
      · rw [if_pos hAI]
        refine ⟨_, rfl, hA, ?_, hV1, hV2, hT1, hT2⟩
        intro c' hc'
        injection hc' with hc'
        exact hc' ▸ ⟨u, hgc, hp, hAI⟩
      · rw [if_neg hAI]
        by_cases hTe : u.type = .Tech
        · rw [if_pos hTe]
          by_cases ht1 : st.tech1.isSome
          · rw [if_pos ht1]
            refine ⟨_, rfl, hA, hD, hV1, hV2, hT1, ?_⟩
            intro c' hc'
            injection hc' with hc'
            exact hc' ▸ ⟨u, hgc, hp, hTe⟩
          · rw [if_neg ht1]
            refine ⟨_, rfl, hA, hD, hV1, hV2, ?_, hT2⟩
            intro c' hc'
            injection hc' with hc'
            exact hc' ▸ ⟨u, hgc, hp, hTe⟩
        · rw [if_neg hTe]
          by_cases hPr : u.type = .Program
          · rw [if_pos hPr]
            exact ⟨_, rfl, hA, hD, hV1, hV2, hT1, hT2⟩
          · rw [if_neg hPr]
            exact ⟨_, rfl, hA, hD, hV1, hV2, hT1, hT2⟩

theorem e2_scan_ok (g : Game)
    (hinv : ∀ c w, g.get c = some w → 1 ≤ w.health) :
    ∀ (L : List Coord) (st : E2State), E2StateOK g st →
      ∃ st', L.foldlM (e2Cell g) st = some st' ∧ E2StateOK g st' := by
  intro L
  induction L with
  | nil => exact fun st h => ⟨st, rfl, h⟩
  | cons c L ih =>
    intro st h
    obtain ⟨st1, h1, hok1⟩ := e2Cell_ok g st c hinv h
    obtain ⟨st2, h2, hok2⟩ := ih st1 hok1
    refine ⟨st2, ?_, hok2⟩
    rw [List.foldlM_cons, h1]
    simpa using h2

theorem e2Distance_ok (g : Game) (st : E2State) (hok : E2StateOK g st) :
    ∃ q, e2Distance st = some q := by
  obtain ⟨hA, hD, hV1, hV2, hT1, hT2⟩ := hok
  have hvp : ∀ q : ℚ, ∃ q', e2VirusPair st q = some q' := by
    intro q
    unfold e2VirusPair
    rcases hv1 : st.virus1 with _ | v1
    · exact ⟨q, rfl⟩
    · rcases hv2 : st.virus2 with _ | v2
      · exact ⟨q, rfl⟩
      · rcases hdai : st.defenderAIcoord with _ | dai
        · exact ⟨q, rfl⟩
        · obtain ⟨u1, hu1, hp1, _⟩ := hV1 v1 hv1
          obtain ⟨ud, hud, hpd, _⟩ := hD dai hdai
          have hd1 : manhattan v1 dai ≠ 0 := distinct_cells hu1 hud (by rw [hp1, hpd]; decide)
          have hn1 := manhattan_nonneg v1 dai
          have hmax : ¬max (manhattan v1 dai) (manhattan v2 dai) = 0 := by
            intro h0
            have hle := le_max_left (manhattan v1 dai) (manhattan v2 dai)
            omega
          simp only
          rw [if_neg hmax]
          exact ⟨_, rfl⟩
  have hvs : ∀ q : ℚ, ∃ q', e2VirusSingle st q = some q' := by
    intro q
    unfold e2VirusSingle
    rcases hv2 : st.virus2 with _ | v2
    · rcases hv1 : st.virus1 with _ | v1
      · exact ⟨q, by rw [if_neg (by simp)]⟩
      · rcases hdai : st.defenderAIcoord with _ | dai
        · exact ⟨q, by rw [if_neg (by simp)]⟩
        · obtain ⟨u1, hu1, hp1, _⟩ := hV1 v1 hv1
          obtain ⟨ud, hud, hpd, _⟩ := hD dai hdai
          have hd1 : manhattan v1 dai ≠ 0 := distinct_cells hu1 hud (by rw [hp1, hpd]; decide)
          exact ⟨_, by rw [if_pos (by simp)]; simp only; rw [if_neg hd1]⟩
    · rcases hdai : st.defenderAIcoord with _ | dai
      · exact ⟨q, by rw [if_neg (by simp)]⟩
      · obtain ⟨u2, hu2, hp2, _⟩ := hV2 v2 hv2
        obtain ⟨ud, hud, hpd, _⟩ := hD dai hdai
        have hd2 : manhattan v2 dai ≠ 0 := distinct_cells hu2 hud (by rw [hp2, hpd]; decide)
        exact ⟨_, by rw [if_pos (by simp)]; simp only; rw [if_neg hd2]⟩
  have htp : ∀ q : ℚ, ∃ q', e2TechPair st q = some q' := by
    intro q
    unfold e2TechPair
    rcases ht1 : st.tech1 with _ | t1
    · exact ⟨q, rfl⟩
    · rcases ht2 : st.tech2 with _ | t2
      · exact ⟨q, rfl⟩
      · rcases haai : st.attackerAIcoord with _ | aai
        · exact ⟨q, rfl⟩
        · obtain ⟨u1, hu1, hp1, _⟩ := hT1 t1 ht1
          obtain ⟨ua, hua, hpa, _⟩ := hA aai haai
          have hd1 : manhattan t1 aai ≠ 0 := distinct_cells hu1 hua (by rw [hp1, hpa]; decide)
          have hn1 := manhattan_nonneg t1 aai
          have hmax : ¬max (manhattan t1 aai) (manhattan t2 aai) = 0 := by
            intro h0
            have hle := le_max_left (manhattan t1 aai) (manhattan t2 aai)
            omega
          simp only
          rw [if_neg hmax]
          exact ⟨_, rfl⟩
  have hts : ∀ q : ℚ, ∃ q', e2TechSingle st q = some q' := by
    intro q
    unfold e2TechSingle
    rcases ht2 : st.tech2 with _ | t2
    · rcases ht1 : st.tech1 with _ | t1
      · exact ⟨q, by rw [if_neg (by simp)]⟩
      · rcases haai : st.attackerAIcoord with _ | aai
        · exact ⟨q, by rw [if_neg (by simp)]⟩
        · obtain ⟨u1, hu1, hp1, _⟩ := hT1 t1 ht1
          obtain ⟨ua, hua, hpa, _⟩ := hA aai haai
          have hd1 : manhattan t1 aai ≠ 0 := distinct_cells hu1 hua (by rw [hp1, hpa]; decide)
          exact ⟨_, by rw [if_pos (by simp)]; simp only; rw [if_neg hd1]⟩
    · rcases haai : st.attackerAIcoord with _ | aai
      · exact ⟨q, by rw [if_neg (by simp)]⟩
      · obtain ⟨u2, hu2, hp2, _⟩ := hT2 t2 ht2
        obtain ⟨ua, hua, hpa, _⟩ := hA aai haai
        have hd2 : manhattan t2 aai ≠ 0 := distinct_cells hu2 hua (by rw [hp2, hpa]; decide)
        exact ⟨_, by rw [if_pos (by simp)]; simp only; rw [if_neg hd2]⟩
  obtain ⟨q1, h1⟩ := hvp st.score
  obtain ⟨q2, h2⟩ := hvs q1
  obtain ⟨q3, h3⟩ := htp q2
  obtain ⟨q4, h4⟩ := hts q3
  refine ⟨q4, ?_⟩
  unfold e2Distance
  rw [h1]
  simp only [Option.some_bind]
  rw [h2]
  simp only [Option.some_bind]
  rw [h3]
  simp only [Option.some_bind]
  exact h4

theorem boardOfList_mem {l : List (Coord × Unit)} {r k : Int} {w : Unit}
    (h : boardOfList l r k = some w) : ∃ p ∈ l, p.2 = w := by
  unfold boardOfList at h
  rcases hf : l.find? (fun p => p.1.row = r ∧ p.1.col = k) with _ | p
  · rw [hf] at h
    simp at h
  · rw [hf] at h
    simp only [Option.map, Option.some.injEq] at h
    exact ⟨p, List.mem_of_find?_eq_some hf, h⟩

theorem get_bounds_of_boardOfList (g : Game) (l : List (Coord × Unit))
    (hb : g.board = boardOfList l) (hl : ∀ p ∈ l, 1 ≤ p.2.health ∧ p.2.health ≤ 9) :
    ∀ c w, g.get c = some w → 1 ≤ w.health ∧ w.health ≤ 9 := by
  intro c w h
  unfold Game.get at h
  split_ifs at h with hv
  rw [hb] at h
  obtain ⟨p, hp, hpw⟩ := boardOfList_mem h
  exact hpw ▸ hl p hp

/-- C9: the heuristic evaluators never fail on a board satisfying the
game's invariants.  `compute_heuristic_e0` (an `Int`) and
`compute_heuristic_e1` (a `ℚ`) are total by construction — their only
divisions are by the constant 9; `compute_heuristic_e2`'s divisions by a
Command unit's health and by Manhattan distances between distinct occupied
cells are modelled by `Option` guards, and with every on-board unit's
health in [1, 9] it always returns a value. -/
theorem C9_heuristics_total (g : Game)
    (hinv : ∀ c w, g.get c = some w → 1 ≤ w.health ∧ w.health ≤ 9) :
    ∃ q, g.compute_heuristic_e2 = some q := by
  obtain ⟨st', hscan, hok⟩ := e2_scan_ok g (fun c w h => (hinv c w h).1)
    (CoordPair.from_dim g.options.dim).iter_rectangle { score := 0 }
    (by refine ⟨?_, ?_, ?_, ?_, ?_, ?_⟩ <;> intro c hc <;> simp at hc)
  obtain ⟨q, hq⟩ := e2Distance_ok g st' hok
  refine ⟨q, ?_⟩
  unfold Game.compute_heuristic_e2
  rw [hscan]
  simpa using hq

/-- Witness for C9: e2 returns a value on the default initial game. -/
theorem C9_heuristics_total_witness : ∃ q, gC7.compute_heuristic_e2 = some q :=
  C9_heuristics_total gC7 (get_bounds_of_boardOfList gC7 _ rfl (by decide))

/-- C1: the claim that `minimax(1, player, t0)` and
`minimax_alphabeta(1, player, MIN, MAX, t0)` agree (no time cutoff, fixed
candidate order) is false: on `gC1` with Defender to act, plain minimax
selects (1,0)→(1,1) with score −3 while alpha-beta selects (0,0)→(0,1)
with score 9996. -/
theorem C1_counterexample :
    gC1.minimax 10 1 .Defender =
      some (-3, some ⟨⟨1, 0⟩, ⟨1, 1⟩⟩) ∧
    gC1.minimax_alphabeta_result 10 1 MIN_HEURISTIC_SCORE MAX_HEURISTIC_SCORE .Defender =
      some (9996, some ⟨⟨0, 0⟩, ⟨0, 1⟩⟩) ∧
    gC1.minimax 10 1 .Defender ≠
      gC1.minimax_alphabeta_result 10 1 MIN_HEURISTIC_SCORE MAX_HEURISTIC_SCORE .Defender ∧
    gC1.has_winner = none := by
  refine ⟨by decide, by decide, by decide, by decide⟩

theorem abLoop_flag_true (child : Game → ℚ → ℚ → Option (ℚ × Option CoordPair × Bool))
    (g : Game) (player : Player) :
    ∀ (cands : List CoordPair) (best : ℚ) (bm : Option CoordPair) (bc : Option Game)
      (alpha beta : ℚ) (r : ℚ × Option CoordPair × Option Game × Bool),
      abLoop child g player cands (best, bm, bc, alpha, beta, true) = some r →
      r.2.2.2 = true := by
  intro cands
  induction cands with
  | nil =>
    intro best bm bc alpha beta r h
    simp only [abLoop, Option.some.injEq] at h
    rw [← h]
  | cons mc rest ih =>
    intro best bm bc alpha beta r h
    simp only [abLoop] at h
    rcases hch : child (g.perform_move_for_AI mc player).2 alpha beta with _ | ⟨cur, m, cfl⟩ <;>
      rw [hch] at h
    · exact absurd h (by simp)
    · simp only [Bool.true_or] at h
      cases player <;> dsimp only at h
      · by_cases hgt : cur > best
        · rw [if_pos hgt] at h
          dsimp only at h
          by_cases hp : beta ≤ max alpha cur
          · rw [if_pos hp] at h
            simp only [Option.some.injEq] at h
            rw [← h]
          · rw [if_neg hp] at h
            exact ih _ _ _ _ _ _ h
        · rw [if_neg hgt] at h
          dsimp only at h
          by_cases hp : beta ≤ max alpha best
          · rw [if_pos hp] at h
            simp only [Option.some.injEq] at h
            rw [← h]
          · rw [if_neg hp] at h
            exact ih _ _ _ _ _ _ h
      · by_cases hlt : cur < best
        · rw [if_pos hlt] at h
          dsimp only at h
          by_cases hp : min beta cur ≤ alpha
          · rw [if_pos hp] at h
            simp only [Option.some.injEq] at h
            rw [← h]
          · rw [if_neg hp] at h
            exact ih _ _ _ _ _ _ h
        · rw [if_neg hlt] at h
          dsimp only at h
          by_cases hp : min beta best ≤ alpha
          · rw [if_pos hp] at h
            simp only [Option.some.injEq] at h
            rw [← h]
          · rw [if_neg hp] at h
            exact ih _ _ _ _ _ _ h

theorem abLoop_eq_searchLoop
    (childAB : Game → ℚ → ℚ → Option (ℚ × Option CoordPair × Bool))
    (childMM : Game → Option (ℚ × Option CoordPair))
    (hcompat : ∀ cg a b s m, childAB cg a b = some (s, m, false) → childMM cg = some (s, m))
    (g : Game) (player : Player) :
    ∀ (cands : List CoordPair) (best : ℚ) (bm : Option CoordPair) (bc : Option Game)
      (alpha beta : ℚ) (s' : ℚ) (m' : Option CoordPair) (c' : Option Game),
      abLoop childAB g player cands (best, bm, bc, alpha, beta, false) =
        some (s', m', c', false) →
      searchLoop childMM g player cands (best, bm, bc) = some (s', m', c') := by
  intro cands
  induction cands with
  | nil =>
    intro best bm bc alpha beta s' m' c' h
    simp only [abLoop, Option.some.injEq, Prod.mk.injEq] at h
    obtain ⟨h1, h2, h3, -⟩ := h
    simp only [searchLoop, Option.some.injEq, Prod.mk.injEq]
    exact ⟨h1, h2, h3⟩
  | cons mc rest ih =>
    intro best bm bc alpha beta s' m' c' h
    simp only [abLoop] at h
    rcases hch : childAB (g.perform_move_for_AI mc player).2 alpha beta with _ | ⟨cur, m, cfl⟩ <;>
      rw [hch] at h
    · exact absurd h (by simp)
    · simp only [Bool.false_or] at h
      cases player <;> dsimp only at h
      · by_cases hgt : cur > best
        · rw [if_pos hgt] at h
          dsimp only at h
          by_cases hp : beta ≤ max alpha cur
          · rw [if_pos hp] at h
            simp at h
          · rw [if_neg hp] at h
            have hcfl : cfl = false := by
              cases hcf : cfl
              · rfl
              · rw [hcf] at h
                simpa using abLoop_flag_true childAB g .Attacker rest _ _ _ _ _ _ h
            rw [hcfl] at h hch
            have hmm := hcompat _ _ _ _ _ hch
            simp only [searchLoop]
            rw [hmm]
            dsimp only
            rw [if_pos (Or.inl ⟨trivial, hgt⟩)]
            exact ih _ _ _ _ _ _ _ _ h
        · rw [if_neg hgt] at h
          dsimp only at h
          by_cases hp : beta ≤ max alpha best
          · rw [if_pos hp] at h
            simp at h
          · rw [if_neg hp] at h
            have hcfl : cfl = false := by
              cases hcf : cfl
              · rfl
              · rw [hcf] at h
                simpa using abLoop_flag_true childAB g .Attacker rest _ _ _ _ _ _ h
            rw [hcfl] at h hch
            have hmm := hcompat _ _ _ _ _ hch
            simp only [searchLoop]
            rw [hmm]
            dsimp only
            have hcond : ¬((True ∧ cur > best) ∨
                (Player.Attacker = Player.Defender ∧ cur < best)) := by
              rintro (⟨-, hx⟩ | ⟨hx, -⟩)
              · exact hgt hx
              · exact absurd hx (by decide)
            rw [if_neg hcond]
            exact ih _ _ _ _ _ _ _ _ h
      · by_cases hlt : cur < best
        · rw [if_pos hlt] at h
          dsimp only at h
          by_cases hp : min beta cur ≤ alpha
          · rw [if_pos hp] at h
            simp at h
          · rw [if_neg hp] at h
            have hcfl : cfl = false := by
              cases hcf : cfl
              · rfl
              · rw [hcf] at h
                simpa using abLoop_flag_true childAB g .Defender rest _ _ _ _ _ _ h
            rw [hcfl] at h hch
            have hmm := hcompat _ _ _ _ _ hch
            simp only [searchLoop]
            rw [hmm]
            dsimp only
            rw [if_pos (Or.inr ⟨trivial, hlt⟩)]
            exact ih _ _ _ _ _ _ _ _ h
        · rw [if_neg hlt] at h
          dsimp only at h
          by_cases hp : min beta best ≤ alpha
          · rw [if_pos hp] at h
            simp at h
          · rw [if_neg hp] at h
            have hcfl : cfl = false := by
              cases hcf : cfl
              · rfl
              · rw [hcf] at h
                simpa using abLoop_flag_true childAB g .Defender rest _ _ _ _ _ _ h
            rw [hcfl] at h hch
            have hmm := hcompat _ _ _ _ _ hch
            simp only [searchLoop]
            rw [hmm]
            dsimp only
            have hcond : ¬((Player.Defender = Player.Attacker ∧ cur > best) ∨
                (True ∧ cur < best)) := by
              rintro (⟨hx, -⟩ | ⟨-, hx⟩)
              · exact absurd hx (by decide)
              · exact hlt hx
            rw [if_neg hcond]
            exact ih _ _ _ _ _ _ _ _ h

/-- C1 (amended): alpha-beta returns the same selected move and score as
plain minimax on any position where no time cutoff triggers, candidate
order is fixed, AND no `beta ≤ alpha` pruning break fires anywhere in the
alpha-beta search (the instrumentation flag is `false`).  With pruning the
two can disagree — see the counterexample — because both routines return
the static heuristic of the chosen child rather than the backed-up score,
which invalidates the usual exchange argument for pruning. -/
theorem C1_no_prune_equiv :
    ∀ (fuel : Nat) (g : Game) (depth : Nat) (alpha beta : ℚ) (player : Player)
      (s : ℚ) (m : Option CoordPair),
      g.minimax_alphabeta fuel depth alpha beta player = some (s, m, false) →
      g.minimax fuel depth player = some (s, m) := by
  intro fuel
  induction fuel with
  | zero =>
    intro g depth alpha beta player s m h
    unfold Game.minimax_alphabeta at h
    unfold Game.minimax
    by_cases hg : depth = g.options.max_depth ∨ g.has_winner.isSome
    · rw [if_pos hg] at h
      rw [if_pos hg]
      rcases hch : g.compute_heuristic with _ | q <;> rw [hch] at h
      · rw [Option.map_none'] at h
        exact absurd h (by simp)
      · simp only [Option.map_some', Option.some.injEq, Prod.mk.injEq] at h
        obtain ⟨hq, hm, -⟩ := h
        simp [hq, hm]
    · rw [if_neg hg] at h
      exact absurd h (by simp)
  | succ fuel ih =>
    intro g depth alpha beta player s m h
    unfold Game.minimax_alphabeta at h
    unfold Game.minimax
    by_cases hg : depth = g.options.max_depth ∨ g.has_winner.isSome
    · rw [if_pos hg] at h
      rw [if_pos hg]
      rcases hch : g.compute_heuristic with _ | q <;> rw [hch] at h
      · rw [Option.map_none'] at h
        exact absurd h (by simp)
      · simp only [Option.map_some', Option.some.injEq, Prod.mk.injEq] at h
        obtain ⟨hq, hm, -⟩ := h
        simp [hq, hm]
    · rw [if_neg hg] at h
      rw [if_neg hg]
      dsimp only at h ⊢
      by_cases hemp : (g.move_candidates_for_AI player).isEmpty
      · rw [if_pos hemp] at h
        exact absurd h (by simp)
      · rw [if_neg hemp] at h
        rw [if_neg hemp]
        rcases habl : abLoop
            (fun cg a b => cg.minimax_alphabeta fuel (depth + 1) a b player.next)
            g player (g.move_candidates_for_AI player)
            (if player = .Defender then MAX_HEURISTIC_SCORE else MIN_HEURISTIC_SCORE,
              none, none, alpha, beta, false) with _ | r <;> rw [habl] at h
        · exact absurd h (by simp)
        · obtain ⟨best', bm, bc, fl⟩ := r
          dsimp only at h
          rcases bc with _ | bcg
          · exact absurd h (by simp)
          · dsimp only at h
            rcases hch : bcg.compute_heuristic with _ | q <;> rw [hch] at h
            · rw [Option.map_none'] at h
              exact absurd h (by simp)
            · simp only [Option.map_some', Option.some.injEq, Prod.mk.injEq] at h
              obtain ⟨hq, hm, hfl⟩ := h
              subst hfl
              have hsl := abLoop_eq_searchLoop
                (fun cg a b => cg.minimax_alphabeta fuel (depth + 1) a b player.next)
                (fun cg => cg.minimax fuel (depth + 1) player.next)
                (fun cg a b s m hx => ih cg (depth + 1) a b player.next s m hx)
                g player (g.move_candidates_for_AI player) _ none none alpha beta
                best' bm (some bcg) habl
              rw [hsl]
              dsimp only
              rw [hch]
              simp [hq, hm]

/-- Witness for C1 on `gC1w` (a 2×2 position searched to depth 2, where
alpha-beta provably never prunes): both searches select the same move,
(1,1)→(0,1), with score 0. -/
theorem C1_no_prune_equiv_witness :
    gC1w.minimax_alphabeta 5 1 MIN_HEURISTIC_SCORE MAX_HEURISTIC_SCORE .Attacker =
      some (0, some ⟨⟨1, 1⟩, ⟨0, 1⟩⟩, false) ∧
    gC1w.minimax 5 1 .Attacker = some (0, some ⟨⟨1, 1⟩, ⟨0, 1⟩⟩) :=
  ⟨by decide,
    C1_no_prune_equiv 5 gC1w 1 MIN_HEURISTIC_SCORE MAX_HEURISTIC_SCORE .Attacker
      0 (some ⟨⟨1, 1⟩, ⟨0, 1⟩⟩) (by decide)⟩

/-- C2: the claim that both legality predicates immobilize an engaged
non-Tech/non-Virus unit is false for `is_valid_move`: on `gC2` the Defender
Program at (1,1) has an enemy Virus on its up-neighbour (0,1), yet moving
down to the empty (2,1) is accepted, because the adjacency membership test
consumed the neighbour generator past the enemy's position.
(`is_valid_move_for_AI` does reject the move.) -/
theorem C2_counterexample :
    gC2.get ⟨1, 1⟩ = some ⟨.Defender, .Program, 9⟩ ∧
    gC2.next_player = .Defender ∧
    gC2.get ⟨0, 1⟩ = some ⟨.Attacker, .Virus, 9⟩ ∧
    (⟨0, 1⟩ : Coord) ∈ (⟨1, 1⟩ : Coord).iter_adjacent ∧
    gC2.get ⟨2, 1⟩ = none ∧
    gC2.is_valid_move ⟨⟨1, 1⟩, ⟨2, 1⟩⟩ = true ∧
    gC2.is_valid_move_for_AI ⟨⟨1, 1⟩, ⟨2, 1⟩⟩ .Defender = false := by
  refine ⟨by decide, by decide, by decide, by decide, by decide, by decide, by decide⟩

/-- C3: the claim that both legality predicates accept only the 4
orthogonal neighbours is false for `is_valid_move_for_AI`, which performs
no adjacency test: on `gC3` the Attacker Virus at (0,0) may "move" to the
empty non-adjacent cell (0,2). -/
theorem C3_counterexample :
    gC3.get ⟨0, 0⟩ = some ⟨.Attacker, .Virus, 9⟩ ∧
    gC3.get ⟨0, 2⟩ = none ∧
    (⟨0, 2⟩ : Coord) ∉ (⟨0, 0⟩ : Coord).iter_adjacent ∧
    gC3.is_valid_move_for_AI ⟨⟨0, 0⟩, ⟨0, 2⟩⟩ .Attacker = true := by
  refine ⟨by decide, by decide, by decide, by decide⟩

/-- C6: the claim that a move onto an adjacent friendly unit is legal iff
the repair-table entry is positive, independently of the target's health,
is false: on `gC6` the Tech→AI entry is 3 > 0, but the AI is at full
health, `repair_amount` is capped to 0, and both predicates reject the
move. -/
theorem C6_counterexample :
    repair_table .Tech .AI > 0 ∧
    gC6.get ⟨0, 1⟩ = some ⟨.Defender, .Tech, 9⟩ ∧
    gC6.get ⟨0, 0⟩ = some ⟨.Defender, .AI, 9⟩ ∧
    gC6.next_player = .Defender ∧
    (⟨0, 0⟩ : Coord) ∈ (⟨0, 1⟩ : Coord).iter_adjacent ∧
    gC6.is_valid_move ⟨⟨0, 1⟩, ⟨0, 0⟩⟩ = false ∧
    gC6.is_valid_move_for_AI ⟨⟨0, 1⟩, ⟨0, 0⟩⟩ .Defender = false := by
  refine ⟨by decide, by decide, by decide, by decide, by decide, by decide, by decide⟩

/-- C7: when the search exceeds the time budget, `suggest_move` does return
no move and the timeout report without raising, and zeroes the acting
faction's AI unit's health — but it never calls `remove_dead`, so the
faction's has-Command flag stays set and `has_winner` still reports no
winner: the faction does not lose, contradicting the claimed (and
spec-intended) forfeiture rule.  Evaluated on the default initial game with
`max_depth` 1 and 6 s elapsed against a 5 s budget. -/
theorem C7_timeout_no_loss :
    ∃ g', gC7.suggest_move 6 1 = some (none, g', "Computer timed out!") ∧
      g'.get ⟨4, 4⟩ = some ⟨.Attacker, .AI, 0⟩ ∧
      g'.attacker_has_ai = true ∧
      g'.has_winner = none ∧
      g'.is_finished = false := by
  refine ⟨_, rfl, by decide, by decide, by decide, by decide⟩

/-- C8: once `turns_played` reaches a configured `max_turns`, `has_winner`
returns Defender and `is_finished` is true, whatever the board holds. -/
theorem C8_turn_limit (g : Game) (m : Int)
    (h1 : g.options.max_turns = some m) (h2 : g.turns_played ≥ m) :
    g.has_winner = some .Defender ∧ g.is_finished = true := by
  have hw : g.has_winner = some .Defender := by
    unfold Game.has_winner
    rw [h1]
    simp [h2]
  exact ⟨hw, by simp [Game.is_finished, hw]⟩

/-- Witness for C8 on a game whose Defender Command flag is already cleared
(`gC8`): the turn limit still yields a Defender win. -/
theorem C8_turn_limit_witness :
    gC8.has_winner = some .Defender ∧ gC8.is_finished = true :=
  C8_turn_limit gC8 3 (by decide) (by decide)

/-- C10: `damage_amount` returns the damage-table entry capped at the
target's current health, `repair_amount` returns the repair-table entry
capped at 9 minus the target's current health, and neither amount can
drive the target below 0 (damage) or above 9 (repair) on its own. -/
theorem C10_amount_clamp (a b : Unit) :
    a.damage_amount b =
      (if damage_table a.type b.type > b.health then b.health
       else damage_table a.type b.type) ∧
    a.repair_amount b =
      (if b.health + repair_table a.type b.type > 9 then 9 - b.health
       else repair_table a.type b.type) ∧
    b.health - a.damage_amount b ≥ 0 ∧
    b.health + a.repair_amount b ≤ 9 := by
  refine ⟨?_, ?_, ?_, ?_⟩ <;>
    simp only [Unit.damage_amount, Unit.repair_amount] <;>
    split_ifs <;> omega

end Wargame
